import Mathlib

/-!
Shallow embedding of the `AbstractSearchService` class of the
`@teclead/search-module` repository (latest revision of
`AbstractSearch.service.ts`).  TypeScript methods become Lean functions;
the mutable `this.rawData` cache is threaded explicitly as a
`List CommonSearchModel`; `string | string[]` field values become the
tagged `SearchValue` type; JavaScript's stable `Array.prototype.sort`
with a descending comparator becomes a stable insertion sort.
-/

namespace SearchModule

/-- JavaScript `String.prototype.includes`, head-anchored step: does `sub`
occur at the start of `l`? -/
def charsLead : List Char → List Char → Bool
  | [], _ => true
  | _ :: _, [] => false
  | a :: as, b :: bs => a = b && charsLead as bs

/-- Does `sub` occur anywhere inside `l`? -/
def charsFind (sub : List Char) : List Char → Bool
  | [] => charsLead sub []
  | b :: bs => charsLead sub (b :: bs) || charsFind sub bs

/-- JavaScript `s.includes(sub)`. -/
def jsIncludes (s sub : String) : Bool := charsFind sub.data s.data

/-- JavaScript `s.toLowerCase()` (ASCII case mapping, as
`String.prototype.toLowerCase` behaves on the ASCII range). -/
def jsToLower (s : String) : String := ⟨s.data.map Char.toLower⟩

/-- JavaScript `s.trim()`: strip leading and trailing whitespace. -/
def jsTrim (s : String) : String :=
  ⟨((s.data.dropWhile Char.isWhitespace).reverse.dropWhile
      Char.isWhitespace).reverse⟩

/-- Accumulator pass of `jsSplitOnSpace`; `cur` holds the current chunk
reversed. -/
def splitOnSpaceAux : List Char → List Char → List String
  | [], cur => [⟨cur.reverse⟩]
  | c :: cs, cur =>
      if c = ' ' then (⟨cur.reverse⟩ : String) :: splitOnSpaceAux cs []
      else splitOnSpaceAux cs (c :: cur)

/-- JavaScript `s.split(' ')`: split on every single space character;
consecutive spaces yield empty chunks, and the empty string yields
`[""]`. -/
def jsSplitOnSpace (s : String) : List String := splitOnSpaceAux s.data []

/-- JavaScript `Array.prototype.toString` on an array of strings:
`join(",")`. -/
def jsArrayToString : List String → String
  | [] => ""
  | [x] => x
  | x :: xs => x ++ "," ++ jsArrayToString xs

/-- Tagged rendering of the dynamic `string | string[]` type of
`SearchRankModel.searchElement`.  Elements of an array value are
strings, per the declared TypeScript type; `matchKeywordToSynonym`'s
defensive `Array.isArray` recursion therefore bottoms out after one
step, embedded below as the string-level matcher. -/
inductive SearchValue where
  | vstr (s : String)
  | varr (elems : List String)
deriving DecidableEq

/-- `SearchRankModel` from `models.ts`: one ranked field.  `searchElement`
is `Option`al because the source guards `!searchModel.searchElement`
(`undefined`/`null`); the separate empty-string falsy case is kept as
`some (.vstr "")`.  `fullMatch` is optional in TS; `undefined` is falsy,
hence a plain `Bool` defaulting to `false`. -/
structure SearchRankModel where
  searchElement : Option SearchValue
  fullMatch : Bool := false
  rank : Int := 0
  synonymRank : Int := 0

/-- `CommonSearchModel`: the integrator record.  `name` stands for the
opaque integrator payload that `getSearchCriteria` reads; `searchRank`
is the engine-managed working rank mutated per query. -/
structure CommonSearchModel where
  name : String
  searchRank : Int := 0
deriving DecidableEq

/-- `SearchResultModel` from `models.ts`. -/
structure SearchResultModel where
  search : String
  foundItems : Nat
  results : List CommonSearchModel
deriving DecidableEq

/-- Return type of `isKeyWordFoundInSynonym`. -/
structure KeywordFound where
  found : Bool
  synonym : Bool
deriving DecidableEq

/-- The abstract-class context an integrator supplies: the synonym table
and the `getSearchCriteria` override. -/
structure SearchCtx where
  synonymsList : List (List String)
  getSearchCriteria : CommonSearchModel → List SearchRankModel

/-- The string branch of `matchKeywordToSynonym`: whole words
(`(searchElement || '').toLowerCase().split(' ').includes(synonym)`)
when `fullMatch` is set, substrings
(`(searchElement || '').toLowerCase().includes(synonym)`) otherwise. -/
def matchStringToSynonym (synonym s : String) (fullMatch : Bool) : Bool :=
  if fullMatch then
    (jsSplitOnSpace (jsToLower s)).contains (jsToLower synonym)
  else
    jsIncludes (jsToLower s) (jsToLower synonym)

/-- `matchKeywordToSynonym(synonym, searchElement, fullMatch)`: an array
value matches when the `filter` of elements matching recursively is
non-empty (`.filter(...).length > 0`); since array elements are strings,
the recursive call lands in the string branch. -/
def matchKeywordToSynonym (synonym : String) (searchElement : SearchValue)
    (fullMatch : Bool) : Bool :=
  match searchElement with
  | .varr elems =>
      decide (0 <
        (elems.filter (fun el => matchStringToSynonym synonym el fullMatch)).length)
  | .vstr s => matchStringToSynonym synonym s fullMatch

/-- The `isSynonym = synonym !== searchWord && !searchModel.fullMatch`
assignment of the candidate loop in `isKeyWordFoundInSynonym`. -/
def isSynonymFlag (sm : SearchRankModel) (searchWord syn : String) : Bool :=
  (syn != searchWord) && !sm.fullMatch

/-- The body of one iteration of the `for (const synonym of
searchWithSynonyms)` loop: compute the effective `fullMatch` mode
(`partialMatch ? false : isSynonym ? isSynonym : searchModel.fullMatch`)
and test the field value — `findIndex(...) > -1` over an array value,
a single `matchKeywordToSynonym` call otherwise. -/
def candidateFound (sm : SearchRankModel) (searchWord : String)
    (partialMatch : Bool) (syn : String) : Bool :=
  let isSynonym := isSynonymFlag sm searchWord syn
  let fm : Bool := if partialMatch then false
                   else if isSynonym then isSynonym else sm.fullMatch
  match sm.searchElement with
  | some (.varr elems) =>
      (elems.findIdx?
        (fun el => matchKeywordToSynonym syn (.vstr el) fm)).isSome
  | some v => matchKeywordToSynonym syn v fm
  | none => false

/-- The candidate loop of `isKeyWordFoundInSynonym`, threading the
mutable `isSynonym` flag; on a hit the loop breaks and returns the flag
of the matching candidate. -/
def synonymLoop (sm : SearchRankModel) (searchWord : String)
    (partialMatch : Bool) : List String → Bool → KeywordFound
  | [], isSyn => { found := false, synonym := isSyn }
  | syn :: rest, _ =>
      if candidateFound sm searchWord partialMatch syn then
        { found := true, synonym := isSynonymFlag sm searchWord syn }
      else synonymLoop sm searchWord partialMatch rest
        (isSynonymFlag sm searchWord syn)

/-- `isKeyWordFoundInSynonym`: falsy guard on `searchElement`
(`undefined`, `null` or the empty string), then the candidate loop. -/
def isKeyWordFoundInSynonym (sm : SearchRankModel)
    (searchWithSynonyms : List String) (searchWord : String)
    (partialMatch : Bool) : KeywordFound :=
  match sm.searchElement with
  | none => { found := false, synonym := false }
  | some (.vstr s) =>
      if s = "" then { found := false, synonym := false }
      else synonymLoop sm searchWord partialMatch searchWithSynonyms false
  | some (.varr _) =>
      synonymLoop sm searchWord partialMatch searchWithSynonyms false

/-- `getSearchRank`: reads the criteria, resets `searchRank` to `0`, then
accumulates `synonymRank`/`rank` per found criterion (the `forEach`
becomes a left fold). -/
def getSearchRank (ctx : SearchCtx) (searchModel : CommonSearchModel)
    (searchWithSynonyms : List String) (searchWord : String)
    (partialMatch : Bool) : CommonSearchModel :=
  let criteria := ctx.getSearchCriteria searchModel
  let finalRank := criteria.foldl
    (fun acc el =>
      let k := isKeyWordFoundInSynonym el searchWithSynonyms searchWord
        partialMatch
      if k.found then
        acc + (if k.synonym then el.synonymRank else el.rank)
      else acc) 0
  { searchModel with searchRank := finalRank }

/-- JavaScript `[...new Set(l)]`: deduplicate keeping first occurrences. -/
def jsSetDedup (l : List String) : List String :=
  l.foldl (fun acc x => if x ∈ acc then acc else acc ++ [x]) []

/-- The `this.synonymsList.forEach((list) => ...)` loop of
`getSynonyms`, threading the mutable `synonyms` accumulator. -/
def getSynonymsAux (search : String) :
    List (List String) → List String → List String
  | [], syns => syns
  | list :: rest, syns =>
      getSynonymsAux search rest
        (if list.contains search then jsSetDedup (syns ++ list) else syns)

/-- `getSynonyms`: seed with the lower-cased word, then for each synonym
group containing the word *as given* (`list.indexOf(search) > -1`) union
the group in via `[...new Set([...synonyms, ...list])]`. -/
def getSynonyms (synonymsList : List (List String)) (search : String) :
    List String :=
  getSynonymsAux search synonymsList [jsToLower search]

/-- Stable insertion step for a descending sort by the measure `m`:
mirrors JavaScript's stable `sort((a, b) => m(b) - m(a))`. -/
def insertDescBy {α : Type} (m : α → Int) (x : α) : List α → List α
  | [] => [x]
  | y :: ys => if m x < m y then y :: insertDescBy m x ys else x :: y :: ys

/-- Stable descending sort by the measure `m`. -/
def sortDescBy {α : Type} (m : α → Int) (l : List α) : List α :=
  l.foldr (insertDescBy m) []

/-- `search.split(' ').sort((a, b) => b.length - a.length)`. -/
def sortByLenDesc (l : List String) : List String :=
  sortDescBy (fun s => (s.length : Int)) l

/-- `.sort((a, b) => b.searchRank - a.searchRank)`. -/
def sortByRankDesc (l : List CommonSearchModel) : List CommonSearchModel :=
  sortDescBy (fun r => r.searchRank) l

/-- `searchForSingleWord`: expand synonyms, then — only for a truthy
(non-empty) search string — map `getSearchRank` over the cache (mutating
every record's `searchRank`), keep ranks `> 0`, sort descending; a falsy
search string returns `this.rawData` itself.  Returns the updated cache
plus the `SearchResultModel` whose label is `synonyms.toString()`. -/
def searchForSingleWord (ctx : SearchCtx) (st : List CommonSearchModel)
    (search : String) (partialMatchesForSecondSearch : Bool) :
    List CommonSearchModel × SearchResultModel :=
  let synonyms := getSynonyms ctx.synonymsList search
  if search = "" then
    (st, { search := jsArrayToString synonyms,
           foundItems := st.length, results := st })
  else
    let updated := st.map
      (fun r => getSearchRank ctx r synonyms search
        partialMatchesForSecondSearch)
    let results := sortByRankDesc
      (updated.filter (fun r => decide (0 < r.searchRank)))
    (updated, { search := jsArrayToString synonyms,
                foundItems := results.length, results := results })

/-- The `for (const _search of secondSearchTerm)` loop of
`getSearchResult`: try each token in order, return the first result with
`foundItems > 0`, threading the mutated cache. -/
def tryTokens (ctx : SearchCtx) (st : List CommonSearchModel) :
    List String → List CommonSearchModel × Option SearchResultModel
  | [] => (st, none)
  | t :: ts =>
      let p := searchForSingleWord ctx st t false
      if 0 < p.2.foundItems then (p.1, some p.2) else tryTokens ctx p.1 ts

/-- `getSearchResult`: falsy-query sentinel, normalization
(`trim().toLowerCase()`), tier 1 (whole query), tier 2 (per-token loop on
`foundItems === 0 && hasMultipleWords`), tier 3 (re-run with
`partialMatchesForSecondSearch = true` when `results.length === 0`).
The `undefined` query is `none`. -/
def getSearchResult (ctx : SearchCtx) (st : List CommonSearchModel)
    (searchInput : Option String) :
    List CommonSearchModel × SearchResultModel :=
  match searchInput with
  | none => (st, { search := "not-definied", foundItems := 0, results := [] })
  | some s =>
      if s = "" then
        (st, { search := "not-definied", foundItems := 0, results := [] })
      else
        let search := jsToLower (jsTrim s)
        let hasMultipleWords : Bool := decide (1 < (jsSplitOnSpace search).length)
        let p1 := searchForSingleWord ctx st search false
        if p1.2.foundItems == 0 && hasMultipleWords then
          match tryTokens ctx p1.1 (sortByLenDesc (jsSplitOnSpace search)) with
          | (st2, some res) => (st2, res)
          | (st2, none) =>
              if p1.2.results.length = 0 then
                searchForSingleWord ctx st2 search true
              else (st2, p1.2)
        else
          if p1.2.results.length = 0 then
            searchForSingleWord ctx p1.1 search true
          else (p1.1, p1.2)

/-- One raw content node of the remote tree: an opaque payload
(`_jcrContent` and friends) plus the `children` relation, which may be
missing/`undefined` (`none`) or present — possibly as an empty list,
which in JavaScript is still truthy. -/
inductive RawServerData where
  | mk (jcrContent : String) (children : Option (List RawServerData))

/-- The `children` field of a raw node. -/
def RawServerData.children : RawServerData → Option (List RawServerData)
  | .mk _ c => c

/-- The opaque payload of a raw node. -/
def RawServerData.jcrContent : RawServerData → String
  | .mk j _ => j

/-- `setUpData`: for each child of the list, if `child.children` is
truthy (present — even an empty array), push `getRawDataElement(child)`
and recurse into the children; the `!data` guard makes a missing list a
no-op.  `tf` is the abstract `getRawDataElement` override; the pushes
are collected into the returned list. -/
def setUpDataList (tf : RawServerData → CommonSearchModel) :
    List RawServerData → List CommonSearchModel
  | [] => []
  | .mk j (some cs) :: rest =>
      tf (.mk j (some cs)) :: (setUpDataList tf cs ++ setUpDataList tf rest)
  | .mk _ none :: rest => setUpDataList tf rest

/-- Specification-side pre-order traversal: every node of the forest, a
node before its children, children before later siblings; a missing
`children` relation is zero children. -/
def preorderList : List RawServerData → List RawServerData
  | [] => []
  | .mk j (some cs) :: rest =>
      .mk j (some cs) :: (preorderList cs ++ preorderList rest)
  | .mk j none :: rest => .mk j none :: preorderList rest

/-- `Status` enum of `models.ts`. -/
inductive Status where
  | success
  | error
deriving DecidableEq

/-- `lastCacheUpdate` record: timestamp plus status. -/
structure LastCacheUpdate where
  time : String
  status : Status
deriving DecidableEq

/-- The parsed JSON body of one mirror response; `pathList` may be
missing (`undefined`).  Each `pathList` entry is handed to `setUpData`,
which iterates it as a list of raw nodes. -/
structure ServerJson where
  pathList : Option (List (List RawServerData))

/-- Outcome of one mirror attempt: the request/parse threw
(`fetchError`), or it produced a parsed JSON body. -/
inductive MirrorOutcome where
  | fetchError
  | response (j : ServerJson)

/-- `data && data.pathList && data.pathList.length > 0`. -/
def isValidData : Option ServerJson → Bool
  | none => false
  | some j =>
      match j.pathList with
      | none => false
      | some l => decide (0 < l.length)

/-- Validity of a single mirror's own outcome. -/
def mirrorValid : MirrorOutcome → Bool
  | .fetchError => false
  | .response j => isValidData (some j)

/-- The `for (let urlIndex in searchUrls)` loop of `getServerData`: a
throwing mirror leaves the (possibly stale) `data` variable unchanged, a
responding mirror overwrites it; the loop breaks at the first state in
which `data` passes the validity check. -/
def runMirrors : List MirrorOutcome → Option ServerJson → Option ServerJson
  | [], d => d
  | .fetchError :: ms, d =>
      if isValidData d then d else runMirrors ms d
  | .response j :: ms, _ =>
      if isValidData (some j) then some j else runMirrors ms (some j)

/-- The mutable service state touched by the fetch path. -/
structure ServiceState where
  rawData : List CommonSearchModel
  lastCacheUpdate : Option LastCacheUpdate
deriving DecidableEq

/-- `data.pathList.forEach((startChild) => this.setUpData(startChild))`
after `this.rawData = []`: the cache becomes the concatenated
flattening of the path list. -/
def flattenPathList (tf : RawServerData → CommonSearchModel)
    (pl : List (List RawServerData)) : List CommonSearchModel :=
  pl.foldl (fun acc sc => acc ++ setUpDataList tf sc) []

/-- `getServerData()` (the parameterless full-refresh call of
`triggerGetServerData`): run the mirror loop; on a valid outcome reset
the cache, flatten the winning `pathList` into it and record `Success`;
otherwise leave the cache untouched and record `Error`.  `now` is the
timestamp taken for `lastCacheUpdate`. -/
def getServerData (tf : RawServerData → CommonSearchModel)
    (mirrors : List MirrorOutcome) (now : String) (st : ServiceState) :
    ServiceState :=
  match runMirrors mirrors none with
  | some j =>
      if isValidData (some j) then
        { rawData := flattenPathList tf (j.pathList.getD []),
          lastCacheUpdate := some ⟨now, Status.success⟩ }
      else
        { st with lastCacheUpdate := some ⟨now, Status.error⟩ }
  | none => { st with lastCacheUpdate := some ⟨now, Status.error⟩ }

/-- One registered `serverDataCallBacks` entry: an observable identity
plus whether awaiting it resolves (`ok = true`) or rejects. -/
structure RefreshCallback where
  id : Nat
  ok : Bool
deriving DecidableEq

/-- The `for (const fn of this.serverDataCallBacks) await fn()` chain:
callbacks are awaited one at a time; the first rejection aborts the
chain (the shared `try` block) and is reported as the error.  Returns
the ids actually invoked and the id of the failing callback, if any. -/
def runServerDataCallBacks : List RefreshCallback → List Nat × Option Nat
  | [] => ([], none)
  | c :: cs =>
      if c.ok then
        let r := runServerDataCallBacks cs
        (c.id :: r.1, r.2)
      else ([c.id], some c.id)

/-- `triggerGetServerData`: one guarded refresh cycle — fetch, then the
callback chain; any error is caught and logged inside the cycle, so the
function always returns normally with the new state and the list of
callbacks that ran. -/
def triggerGetServerData (tf : RawServerData → CommonSearchModel)
    (mirrors : List MirrorOutcome) (now : String) (st : ServiceState)
    (cbs : List RefreshCallback) : ServiceState × List Nat :=
  let st' := getServerData tf mirrors now st
  let r := runServerDataCallBacks cbs
  (st', r.1)

/-- A minimal concrete integrator: no synonym table, a single ranked
field holding the record's `name` (base weight `5`, synonym weight `1`,
substring mode). -/
def ctxA : SearchCtx :=
  { synonymsList := [],
    getSearchCriteria := fun r =>
      [{ searchElement := some (.vstr r.name), fullMatch := false,
         rank := 5, synonymRank := 1 }] }

/-- A concrete integrator with two ranked fields on the same `name`
value, base weights `3` and `2` (the spec's additivity example). -/
def ctxB : SearchCtx :=
  { synonymsList := [],
    getSearchCriteria := fun r =>
      [{ searchElement := some (.vstr r.name), fullMatch := false,
         rank := 3, synonymRank := 1 },
       { searchElement := some (.vstr r.name), fullMatch := false,
         rank := 2, synonymRank := 1 }] }

/-- A minimal concrete `getRawDataElement` override: keep the payload,
start with rank `0`. -/
def tfA : RawServerData → CommonSearchModel :=
  fun n => { name := n.jcrContent, searchRank := 0 }

/-! ### Helper lemmas -/

theorem mem_foldl_dedupStep (l : List String) :
    ∀ (acc : List String) (x : String),
      (x ∈ l.foldl (fun acc y => if y ∈ acc then acc else acc ++ [y]) acc) ↔
        x ∈ acc ∨ x ∈ l := by
  induction l with
  | nil => simp
  | cons y t ih =>
      intro acc x
      rw [List.foldl_cons, ih]
      by_cases hy : y ∈ acc
      · rw [if_pos hy, List.mem_cons]
        constructor
        · tauto
        · rintro (h | rfl | h)
          · exact Or.inl h
          · exact Or.inl hy
          · exact Or.inr h
      · rw [if_neg hy]
        simp only [List.mem_append, List.mem_singleton, List.mem_cons]
        tauto

theorem mem_jsSetDedup (l : List String) (x : String) :
    x ∈ jsSetDedup l ↔ x ∈ l := by
  simpa [jsSetDedup] using mem_foldl_dedupStep l [] x

theorem contains_iff_mem (l : List String) (x : String) :
    l.contains x = true ↔ x ∈ l := by
  simp [List.contains]

theorem mem_getSynonymsAux (search : String) (L : List (List String)) :
    ∀ (syns : List String) (x : String), x ∈ syns →
      x ∈ getSynonymsAux search L syns := by
  induction L with
  | nil => intro syns x hx; simpa [getSynonymsAux] using hx
  | cons g rest ih =>
      intro syns x hx
      rw [getSynonymsAux]
      apply ih
      by_cases hg : g.contains search = true
      · rw [if_pos hg]
        exact (mem_jsSetDedup _ x).mpr (List.mem_append.mpr (Or.inl hx))
      · rw [if_neg hg]
        exact hx

theorem getSynonymsAux_no_group (search : String) (L : List (List String)) :
    ∀ (syns : List String), (∀ g ∈ L, search ∉ g) →
      getSynonymsAux search L syns = syns := by
  induction L with
  | nil => intro syns _; rfl
  | cons g rest ih =>
      intro syns h
      rw [getSynonymsAux]
      have hg : ¬ g.contains search = true := by
        intro hc
        exact h g (by simp) ((contains_iff_mem g search).mp hc)
      rw [if_neg hg]
      exact ih syns (fun g' hg' => h g' (by simp [hg']))

theorem getSynonymsAux_group (search : String) (L : List (List String)) :
    ∀ (syns : List String) (g : List String), g ∈ L → search ∈ g →
      ∀ x ∈ g, x ∈ getSynonymsAux search L syns := by
  induction L with
  | nil => intro _ _ h; exact absurd h (List.not_mem_nil _)
  | cons g0 rest ih =>
      intro syns g hgL hs x hx
      rcases List.mem_cons.mp hgL with h0 | hrest
      · subst h0
        rw [getSynonymsAux]
        have hg : g.contains search = true := (contains_iff_mem g search).mpr hs
        rw [if_pos hg]
        exact mem_getSynonymsAux search rest _ x
          ((mem_jsSetDedup _ x).mpr (List.mem_append.mpr (Or.inr hx)))
      · rw [getSynonymsAux]
        exact ih _ g hrest hs x hx

theorem getSynonymsAux_sound (search : String) (L : List (List String)) :
    ∀ (syns : List String) (x : String), x ∈ getSynonymsAux search L syns →
      x ∈ syns ∨ ∃ g ∈ L, search ∈ g ∧ x ∈ g := by
  induction L with
  | nil => intro syns x hx; exact Or.inl (by simpa [getSynonymsAux] using hx)
  | cons g rest ih =>
      intro syns x hx
      rw [getSynonymsAux] at hx
      rcases ih _ x hx with hstep | ⟨g', hg', hs', hx'⟩
      · by_cases hg : g.contains search = true
        · rw [if_pos hg] at hstep
          rcases List.mem_append.mp ((mem_jsSetDedup _ x).mp hstep) with h | h
          · exact Or.inl h
          · exact Or.inr ⟨g, by simp, (contains_iff_mem g search).mp hg, h⟩
        · rw [if_neg hg] at hstep
          exact Or.inl hstep
      · exact Or.inr ⟨g', by simp [hg'], hs', hx'⟩

theorem perm_insertDescBy {α : Type} (m : α → Int) (x : α) (l : List α) :
    List.Perm (insertDescBy m x l) (x :: l) := by
  induction l with
  | nil => exact List.Perm.refl _
  | cons y ys ih =>
      rw [insertDescBy]
      by_cases h : m x < m y
      · rw [if_pos h]
        exact List.Perm.trans (List.Perm.cons y ih) (List.Perm.swap x y ys)
      · rw [if_neg h]

theorem perm_sortDescBy {α : Type} (m : α → Int) (l : List α) :
    List.Perm (sortDescBy m l) l := by
  induction l with
  | nil => exact List.Perm.refl _
  | cons y ys ih =>
      exact List.Perm.trans (perm_insertDescBy m y (sortDescBy m ys))
        (List.Perm.cons y ih)

theorem mem_insertDescBy {α : Type} (m : α → Int) (x z : α) (l : List α) :
    z ∈ insertDescBy m x l ↔ z = x ∨ z ∈ l := by
  rw [(perm_insertDescBy m x l).mem_iff]
  simp

theorem pairwise_insertDescBy {α : Type} (m : α → Int) (x : α) (l : List α)
    (h : List.Pairwise (fun a b => m b ≤ m a) l) :
    List.Pairwise (fun a b => m b ≤ m a) (insertDescBy m x l) := by
  induction l with
  | nil => exact List.pairwise_singleton _ _
  | cons y ys ih =>
      rw [List.pairwise_cons] at h
      rw [insertDescBy]
      by_cases hxy : m x < m y
      · rw [if_pos hxy]
        rw [List.pairwise_cons]
        refine ⟨?_, ih h.2⟩
        intro z hz
        rcases (mem_insertDescBy m x z ys).mp hz with rfl | hz'
        · exact le_of_lt hxy
        · exact h.1 z hz'
      · rw [if_neg hxy]
        rw [List.pairwise_cons]
        refine ⟨?_, List.pairwise_cons.mpr h⟩
        intro z hz
        rcases List.mem_cons.mp hz with rfl | hz'
        · exact le_of_not_lt hxy
        · exact le_trans (h.1 z hz') (le_of_not_lt hxy)

theorem pairwise_sortDescBy {α : Type} (m : α → Int) (l : List α) :
    List.Pairwise (fun a b => m b ≤ m a) (sortDescBy m l) := by
  induction l with
  | nil => exact List.Pairwise.nil
  | cons y ys ih => exact pairwise_insertDescBy m y (sortDescBy m ys) ih

theorem filter_length_pos_eq_any {α : Type} (p : α → Bool) (l : List α) :
    decide (0 < (l.filter p).length) = l.any p := by
  induction l with
  | nil => rfl
  | cons a t ih =>
      rw [List.filter_cons, List.any_cons]
      by_cases h : p a = true
      · rw [h]; simp
      · rw [Bool.eq_false_iff.mpr h]
        simpa using ih

theorem findIdx?_isSome_eq_any {α : Type} (p : α → Bool) (l : List α) :
    (l.findIdx? p).isSome = l.any p := by
  induction l with
  | nil => rfl
  | cons a t ih =>
      rw [List.findIdx?_cons, List.any_cons]
      by_cases h : p a = true
      · rw [h]; simp
      · rw [Bool.eq_false_iff.mpr h]
        simpa using ih

theorem foldl_if_sum {α : Type} (c : α → Bool) (w : α → Int) (l : List α) :
    ∀ init : Int,
      l.foldl (fun acc el => if c el then acc + w el else acc) init =
        init + ((l.filter c).map w).sum := by
  induction l with
  | nil => intro init; simp
  | cons a t ih =>
      intro init
      rw [List.foldl_cons, List.filter_cons]
      by_cases h : c a = true
      · rw [if_pos h, h, ih]
        simp [add_assoc]
      · rw [if_neg h, Bool.eq_false_iff.mpr h, ih]
        simp

/-! ### C1 and C10 — tiered query resolution -/

theorem foundItems_eq_results_length (ctx : SearchCtx)
    (st : List CommonSearchModel) (q : String) (pm : Bool) :
    (searchForSingleWord ctx st q pm).2.foundItems =
      (searchForSingleWord ctx st q pm).2.results.length := by
  by_cases h : q = "" <;> simp [searchForSingleWord, h]

theorem getSearchResult_tier1 (ctx : SearchCtx)
    (st : List CommonSearchModel) (raw q : String)
    (hq : q = jsToLower (jsTrim raw)) (hne : q ≠ "")
    (h1 : 0 < (searchForSingleWord ctx st q false).2.foundItems) :
    getSearchResult ctx st (some raw) = searchForSingleWord ctx st q false := by
  have hraw : raw ≠ "" := by
    intro h
    apply hne
    rw [hq, h]
    rfl
  have hbeq : ((searchForSingleWord ctx st q false).2.foundItems == 0)
      = false := by
    simp only [beq_eq_false_iff_ne, ne_eq]
    omega
  have hlen : ¬ (searchForSingleWord ctx st q false).2.results.length = 0 := by
    rw [← foundItems_eq_results_length]
    omega
  rw [getSearchResult, if_neg hraw, ← hq]
  simp only [hbeq, Bool.false_and, Bool.false_eq_true, if_false]
  rw [if_neg hlen]

theorem getSearchResult_tier2 (ctx : SearchCtx)
    (st : List CommonSearchModel) (raw q : String)
    (hq : q = jsToLower (jsTrim raw)) (hne : q ≠ "")
    (h1 : (searchForSingleWord ctx st q false).2.foundItems = 0)
    (hm : 1 < (jsSplitOnSpace q).length) :
    getSearchResult ctx st (some raw) =
      (match tryTokens ctx (searchForSingleWord ctx st q false).1
          (sortByLenDesc (jsSplitOnSpace q)) with
       | (st2, some r) => (st2, r)
       | (st2, none) => searchForSingleWord ctx st2 q true) := by
  have hraw : raw ≠ "" := by
    intro h
    apply hne
    rw [hq, h]
    rfl
  have hlen : (searchForSingleWord ctx st q false).2.results.length = 0 := by
    rw [← foundItems_eq_results_length]
    exact h1
  rw [getSearchResult, if_neg hraw, ← hq]
  have hcond : ((searchForSingleWord ctx st q false).2.foundItems == 0
      && decide (1 < (jsSplitOnSpace q).length)) = true := by
    rw [h1]
    simp [hm]
  rw [if_pos hcond]
  rcases htk : tryTokens ctx (searchForSingleWord ctx st q false).1
      (sortByLenDesc (jsSplitOnSpace q)) with ⟨st2, r⟩
  cases r with
  | some res => rfl
  | none =>
      show (if (searchForSingleWord ctx st q false).2.results.length = 0
          then searchForSingleWord ctx st2 q true
          else (st2, (searchForSingleWord ctx st q false).2)) =
        searchForSingleWord ctx st2 q true
      rw [if_pos hlen]

theorem getSearchResult_tier3_single (ctx : SearchCtx)
    (st : List CommonSearchModel) (raw q : String)
    (hq : q = jsToLower (jsTrim raw)) (hne : q ≠ "")
    (h1 : (searchForSingleWord ctx st q false).2.foundItems = 0)
    (hm : ¬ 1 < (jsSplitOnSpace q).length) :
    getSearchResult ctx st (some raw) =
      searchForSingleWord ctx (searchForSingleWord ctx st q false).1 q true := by
  have hraw : raw ≠ "" := by
    intro h
    apply hne
    rw [hq, h]
    rfl
  have hlen : (searchForSingleWord ctx st q false).2.results.length = 0 := by
    rw [← foundItems_eq_results_length]
    exact h1
  rw [getSearchResult, if_neg hraw, ← hq]
  have hcond : ¬ ((searchForSingleWord ctx st q false).2.foundItems == 0
      && decide (1 < (jsSplitOnSpace q).length)) = true := by
    simp [hm]
  rw [if_neg hcond]
  rw [if_pos hlen]

theorem tryTokens_hit (ctx : SearchCtx) (s : List CommonSearchModel)
    (t : String) (ts : List String)
    (h : 0 < (searchForSingleWord ctx s t false).2.foundItems) :
    tryTokens ctx s (t :: ts) =
      ((searchForSingleWord ctx s t false).1,
       some (searchForSingleWord ctx s t false).2) := by
  rw [tryTokens]
  rw [if_pos h]

theorem tryTokens_miss (ctx : SearchCtx) (s : List CommonSearchModel)
    (t : String) (ts : List String)
    (h : (searchForSingleWord ctx s t false).2.foundItems = 0) :
    tryTokens ctx s (t :: ts) =
      tryTokens ctx (searchForSingleWord ctx s t false).1 ts := by
  rw [tryTokens]
  rw [if_neg (by omega)]

theorem sortByLenDesc_pairwise (l : List String) :
    List.Pairwise (fun a b : String => b.length ≤ a.length)
      (sortByLenDesc l) :=
  (pairwise_sortDescBy (fun s : String => (s.length : Int)) l).imp
    (fun h => by exact_mod_cast h)

theorem sortByLenDesc_perm (l : List String) :
    List.Perm (sortByLenDesc l) l :=
  perm_sortDescBy (fun s : String => (s.length : Int)) l

/-- C1: tiered query resolution.  For a non-empty normalized query:
if the Tier-1 whole-query pass yields at least one match, its result is
returned and Tiers 2 and 3 never run; Tier 2 runs only when Tier 1
found zero matches and the query splits into more than one token, in
which case the tokens — a permutation of the split, sorted by
descending length — are tried in order, a token with at least one match
ends the loop with its result, and a token with zero matches passes the
(mutated) cache on to the next; when the token loop is exhausted, and
when the query is a single token with zero Tier-1 matches, Tier 3
(`partialMatchesForSecondSearch = true` on the full query) runs and its
result is returned unconditionally, even when itself empty. -/
theorem getSearchResult_tiering (ctx : SearchCtx)
    (st : List CommonSearchModel) (raw q : String)
    (hq : q = jsToLower (jsTrim raw)) (hne : q ≠ "") :
    (0 < (searchForSingleWord ctx st q false).2.foundItems →
      getSearchResult ctx st (some raw) = searchForSingleWord ctx st q false)
    ∧ ((searchForSingleWord ctx st q false).2.foundItems = 0 →
        1 < (jsSplitOnSpace q).length →
      getSearchResult ctx st (some raw) =
        (match tryTokens ctx (searchForSingleWord ctx st q false).1
            (sortByLenDesc (jsSplitOnSpace q)) with
         | (st2, some r) => (st2, r)
         | (st2, none) => searchForSingleWord ctx st2 q true))
    ∧ ((searchForSingleWord ctx st q false).2.foundItems = 0 →
        ¬ 1 < (jsSplitOnSpace q).length →
      getSearchResult ctx st (some raw) =
        searchForSingleWord ctx (searchForSingleWord ctx st q false).1 q true)
    ∧ List.Pairwise (fun a b : String => b.length ≤ a.length)
        (sortByLenDesc (jsSplitOnSpace q))
    ∧ List.Perm (sortByLenDesc (jsSplitOnSpace q)) (jsSplitOnSpace q)
    ∧ (∀ (s : List CommonSearchModel) (t : String) (ts : List String),
        0 < (searchForSingleWord ctx s t false).2.foundItems →
        tryTokens ctx s (t :: ts) =
          ((searchForSingleWord ctx s t false).1,
           some (searchForSingleWord ctx s t false).2))
    ∧ (∀ (s : List CommonSearchModel) (t : String) (ts : List String),
        (searchForSingleWord ctx s t false).2.foundItems = 0 →
        tryTokens ctx s (t :: ts) =
          tryTokens ctx (searchForSingleWord ctx s t false).1 ts) :=
  ⟨getSearchResult_tier1 ctx st raw q hq hne,
   getSearchResult_tier2 ctx st raw q hq hne,
   getSearchResult_tier3_single ctx st raw q hq hne,
   sortByLenDesc_pairwise (jsSplitOnSpace q),
   sortByLenDesc_perm (jsSplitOnSpace q),
   tryTokens_hit ctx,
   tryTokens_miss ctx⟩

/-- C1 witness: the query `"Alpha"` normalizes to `"alpha"`, Tier 1
matches the single cached record, and the overall result is exactly the
Tier-1 result. -/
theorem getSearchResult_tiering_witness :
    getSearchResult ctxA [⟨"alpha", 0⟩] (some "Alpha") =
      searchForSingleWord ctxA [⟨"alpha", 0⟩] "alpha" false :=
  (getSearchResult_tiering ctxA [⟨"alpha", 0⟩] "Alpha" "alpha"
      (by decide) (by decide)).1 (by decide)

theorem searchForSingleWord_fst_length (ctx : SearchCtx)
    (st : List CommonSearchModel) (q : String) (pm : Bool) :
    ((searchForSingleWord ctx st q pm).1).length = st.length := by
  by_cases h : q = "" <;> simp [searchForSingleWord, h]

theorem tryTokens_fst_length (ctx : SearchCtx) :
    ∀ (ts : List String) (st st2 : List CommonSearchModel)
      (r : Option SearchResultModel),
      tryTokens ctx st ts = (st2, r) → st2.length = st.length := by
  intro ts
  induction ts with
  | nil =>
      intro st st2 r h
      rw [tryTokens] at h
      injection h with h1 _
      rw [← h1]
  | cons t ts ih =>
      intro st st2 r h
      rw [tryTokens] at h
      by_cases hf : 0 < (searchForSingleWord ctx st t false).2.foundItems
      · rw [if_pos hf] at h
        injection h with h1 _
        rw [← h1]
        exact searchForSingleWord_fst_length ctx st t false
      · rw [if_neg hf] at h
        rw [ih _ _ _ h]
        exact searchForSingleWord_fst_length ctx st t false

theorem tryTokens_append_none (ctx : SearchCtx) :
    ∀ (ts ts' : List String) (st st2 : List CommonSearchModel),
      tryTokens ctx st ts = (st2, none) →
      tryTokens ctx st (ts ++ ts') = tryTokens ctx st2 ts' := by
  intro ts
  induction ts with
  | nil =>
      intro ts' st st2 h
      rw [tryTokens] at h
      injection h with h1 _
      rw [List.nil_append, h1]
  | cons t ts ih =>
      intro ts' st st2 h
      rw [tryTokens] at h
      by_cases hf : 0 < (searchForSingleWord ctx st t false).2.foundItems
      · rw [if_pos hf] at h
        injection h with _ h2
        cases h2
      · rw [if_neg hf] at h
        rw [List.cons_append, tryTokens, if_neg hf]
        exact ih ts' _ st2 h

/-- C10 (amended): with a non-empty cache and a normalized query whose
token list contains the empty token (two consecutive spaces), if the
Tier-1 pass found nothing and the token loop exhausts every token
before the empty one without a match, `searchForSingleWord` applied to
the empty token skips the map/filter/sort pipeline and returns the
cache itself: the result is the entire cache, unfiltered and unranked,
with `foundItems` equal to the cache size and the empty string as
search label.  The records returned are the cache as mutated by this
query's own preceding scoring passes — every record carries the
`searchRank` written by the last pass, not the rank a previous query
left (see the counterexample). -/
theorem empty_token_returns_cache (ctx : SearchCtx)
    (st st2 : List CommonSearchModel) (raw q : String)
    (ts rest : List String)
    (hq : q = jsToLower (jsTrim raw)) (hne : q ≠ "")
    (hmulti : 1 < (jsSplitOnSpace q).length)
    (hsplit : sortByLenDesc (jsSplitOnSpace q) = ts ++ "" :: rest)
    (h1 : (searchForSingleWord ctx st q false).2.foundItems = 0)
    (h2 : tryTokens ctx (searchForSingleWord ctx st q false).1 ts =
      (st2, none))
    (hcache : st ≠ [])
    (hsyn : ∀ g ∈ ctx.synonymsList, "" ∉ g) :
    getSearchResult ctx st (some raw) =
      (st2, { search := "", foundItems := st2.length, results := st2 })
    ∧ st2.length = st.length := by
  have hlen : st2.length = st.length := by
    rw [tryTokens_fst_length ctx ts _ st2 none h2]
    exact searchForSingleWord_fst_length ctx st q false
  have hpos : 0 < st2.length := by
    rw [hlen]
    exact List.length_pos.mpr hcache
  have hsynEq : getSynonyms ctx.synonymsList "" = [""] := by
    rw [getSynonyms, getSynonymsAux_no_group "" ctx.synonymsList _ hsyn]
    rfl
  have hsw : searchForSingleWord ctx st2 "" false =
      (st2, { search := "", foundItems := st2.length, results := st2 }) := by
    rw [searchForSingleWord, if_pos rfl, hsynEq]
    rfl
  refine ⟨?_, hlen⟩
  rw [getSearchResult_tier2 ctx st raw q hq hne h1 hmulti, hsplit,
    tryTokens_append_none ctx ts ("" :: rest) _ st2 h2,
    tryTokens_hit ctx st2 "" rest (by rw [hsw]; exact hpos), hsw]

/-- C10 counterexample: the claim that the returned records "keep
whatever searchRank a previous query left on them" is false.  A first
query `"xx"` leaves the record with rank `5`; the second query
`"ab  cd"` (double space, no matches anywhere) returns the whole cache,
but with rank `0` — overwritten by this query's own failed scoring
passes — not the previous query's `5`. -/
theorem empty_token_rank_overwrite_cex :
    (getSearchResult ctxA [⟨"xx", 0⟩] (some "xx")).1 = [⟨"xx", 5⟩]
    ∧ (getSearchResult ctxA
        (getSearchResult ctxA [⟨"xx", 0⟩] (some "xx")).1
        (some "ab  cd")).2.results = [⟨"xx", 0⟩]
    ∧ ([⟨"xx", 0⟩] : List CommonSearchModel) ≠ [⟨"xx", 5⟩] := by
  exact ⟨by decide, by decide, by decide⟩

/-- C10 witness for the amended claim: query `"ab  cd"` against the
one-record cache — Tier 1 and the tokens `"ab"`, `"cd"` find nothing,
the empty token returns the whole (re-ranked) cache with search label
`""` and `foundItems = 1`. -/
theorem empty_token_returns_cache_witness :
    getSearchResult ctxA [⟨"xx", 5⟩] (some "ab  cd") =
      ([⟨"xx", 0⟩],
       { search := "", foundItems := List.length [(⟨"xx", 0⟩ : CommonSearchModel)],
         results := [⟨"xx", 0⟩] })
    ∧ List.length [(⟨"xx", 0⟩ : CommonSearchModel)] =
        List.length [(⟨"xx", 5⟩ : CommonSearchModel)] :=
  empty_token_returns_cache ctxA [⟨"xx", 5⟩] [⟨"xx", 0⟩] "ab  cd" "ab  cd"
    ["ab", "cd"] [] (by decide) (by decide) (by decide) (by decide)
    (by decide) (by decide) (by decide) (by decide)

/-! ### C2 — additive scoring, exclusion and ordering -/

theorem searchForSingleWord_results (ctx : SearchCtx)
    (st : List CommonSearchModel) (q : String) (pm : Bool) (hq : q ≠ "") :
    (searchForSingleWord ctx st q pm).2.results =
      sortByRankDesc
        ((st.map (fun r => getSearchRank ctx r
            (getSynonyms ctx.synonymsList q) q pm)).filter
          (fun r => decide (0 < r.searchRank))) := by
  rw [searchForSingleWord, if_neg hq]

/-- C2: per-record scoring is additive — the updated `searchRank` is the
sum, over the criteria declared by `getSearchCriteria` whose value was
found, of `synonymRank` for synonym hits and of the base `rank` for
literal hits (and the record payload is untouched); a record with no
found criterion gets rank `0`; every returned result has rank `> 0`
(zero-rank records are excluded), and the returned results are sorted
in descending `searchRank` order. -/
theorem getSearchRank_additive_sorted (ctx : SearchCtx) :
    (∀ (r : CommonSearchModel) (syns : List String) (word : String)
        (pm : Bool),
      (getSearchRank ctx r syns word pm).searchRank =
        (((ctx.getSearchCriteria r).filter
            (fun el => (isKeyWordFoundInSynonym el syns word pm).found)).map
          (fun el =>
            if (isKeyWordFoundInSynonym el syns word pm).synonym then
              el.synonymRank
            else el.rank)).sum
      ∧ (getSearchRank ctx r syns word pm).name = r.name)
    ∧ (∀ (r : CommonSearchModel) (syns : List String) (word : String)
        (pm : Bool),
      (∀ el ∈ ctx.getSearchCriteria r,
          (isKeyWordFoundInSynonym el syns word pm).found = false) →
      (getSearchRank ctx r syns word pm).searchRank = 0)
    ∧ (∀ (st : List CommonSearchModel) (q : String) (pm : Bool), q ≠ "" →
      (∀ x ∈ (searchForSingleWord ctx st q pm).2.results, 0 < x.searchRank)
      ∧ List.Pairwise (fun a b => b.searchRank ≤ a.searchRank)
          (searchForSingleWord ctx st q pm).2.results) := by
  refine ⟨?_, ?_, ?_⟩
  · intro r syns word pm
    constructor
    · show ((ctx.getSearchCriteria r).foldl _ 0) = _
      rw [foldl_if_sum
        (fun el => (isKeyWordFoundInSynonym el syns word pm).found)
        (fun el =>
          if (isKeyWordFoundInSynonym el syns word pm).synonym then
            el.synonymRank
          else el.rank)]
      rw [zero_add]
    · rfl
  · intro r syns word pm hall
    show ((ctx.getSearchCriteria r).foldl _ 0) = 0
    rw [foldl_if_sum
      (fun el => (isKeyWordFoundInSynonym el syns word pm).found)
      (fun el =>
        if (isKeyWordFoundInSynonym el syns word pm).synonym then
          el.synonymRank
        else el.rank)]
    rw [List.filter_eq_nil_iff.mpr (by intro a ha; simp [hall a ha])]
    simp
  · intro st q pm hq
    rw [searchForSingleWord_results ctx st q pm hq]
    constructor
    · intro x hx
      have hx' := (perm_sortDescBy
        (fun r : CommonSearchModel => r.searchRank) _).mem_iff.mp hx
      have := (List.mem_filter.mp hx').2
      simpa using this
    · exact pairwise_sortDescBy (fun r : CommonSearchModel => r.searchRank) _

/-- C2 witness: a record matching its single criterion (weight 3) and a
second criterion (weight 2) — every returned result of a concrete
search has positive rank and the list is sorted descending. -/
theorem getSearchRank_additive_sorted_witness :
    (∀ x ∈ (searchForSingleWord ctxB [⟨"abc", 0⟩] "abc" false).2.results,
        0 < x.searchRank)
    ∧ List.Pairwise (fun a b => b.searchRank ≤ a.searchRank)
        (searchForSingleWord ctxB [⟨"abc", 0⟩] "abc" false).2.results :=
  (getSearchRank_additive_sorted ctxB).2.2 [⟨"abc", 0⟩] "abc" false
    (by decide)

/-! ### C3 — synonym-hit classification and match mode -/

theorem synonymLoop_found_proj (sm : SearchRankModel) (word : String)
    (pm : Bool) (syn : String) (rest : List String) (b : Bool) :
    (synonymLoop sm word pm (syn :: rest) b).found = true ↔
      (candidateFound sm word pm syn = true
       ∨ (synonymLoop sm word pm rest (isSynonymFlag sm word syn)).found
            = true) := by
  rw [synonymLoop]
  by_cases h : candidateFound sm word pm syn = true
  · rw [if_pos h]; simp [h]
  · rw [if_neg h]; simp [h]

theorem synonymLoop_first_hit (sm : SearchRankModel) (word : String)
    (pm : Bool) (syn : String) (post : List String)
    (hsyn : candidateFound sm word pm syn = true) :
    ∀ (pre : List String) (b : Bool),
      (∀ s' ∈ pre, candidateFound sm word pm s' = false) →
      synonymLoop sm word pm (pre ++ syn :: post) b =
        { found := true, synonym := isSynonymFlag sm word syn } := by
  intro pre
  induction pre with
  | nil =>
      intro b _
      rw [List.nil_append, synonymLoop, if_pos hsyn]
  | cons s' pre' ih =>
      intro b hpre
      have hs' : candidateFound sm word pm s' = false := hpre s' (by simp)
      rw [List.cons_append, synonymLoop, if_neg (by simp [hs'])]
      exact ih _ (fun x hx => hpre x (by simp [hx]))

theorem isKeyWordFoundInSynonym_eq_loop (sm : SearchRankModel)
    (syns : List String) (word : String) (pm : Bool)
    (h1 : sm.searchElement ≠ none)
    (h2 : sm.searchElement ≠ some (.vstr "")) :
    isKeyWordFoundInSynonym sm syns word pm =
      synonymLoop sm word pm syns false := by
  rw [isKeyWordFoundInSynonym.eq_def]
  split
  next hse => exact absurd hse h1
  next s hse =>
    have hs : s ≠ "" := fun h => h2 (by rw [hse, h])
    rw [if_neg hs]
  next elems hse => rfl

/-- C3: a candidate synonym counts as a synonym hit exactly when it
differs from the original query word and the field does not mandate
`fullMatch` (the flag returned with the first matching candidate is
`syn !== searchWord && !fullMatch`); the comparison mode is substring
containment when the Tier-3 relaxation flag is set, otherwise whole-word
matching exactly when the field mandates `fullMatch` or the candidate
differs from the query word; whole-word matching means the lower-cased
field value split on spaces contains the lower-cased synonym, substring
mode is `includes`; and an array-valued field matches when any element
matches. -/
theorem synonymHit_classification_and_mode (sm : SearchRankModel)
    (word syn : String) (pm : Bool) :
    (∀ (pre post : List String),
      sm.searchElement ≠ none → sm.searchElement ≠ some (.vstr "") →
      (∀ s' ∈ pre, candidateFound sm word pm s' = false) →
      candidateFound sm word pm syn = true →
      isKeyWordFoundInSynonym sm (pre ++ syn :: post) word pm =
        { found := true, synonym := (syn != word) && !sm.fullMatch })
    ∧ (∀ s : String, s ≠ "" → sm.searchElement = some (.vstr s) →
      (isKeyWordFoundInSynonym sm [syn] word pm).found =
        matchKeywordToSynonym syn (.vstr s)
          (!pm && (sm.fullMatch || (syn != word))))
    ∧ (∀ s : String, matchKeywordToSynonym syn (.vstr s) true =
        (jsSplitOnSpace (jsToLower s)).contains (jsToLower syn))
    ∧ (∀ s : String, matchKeywordToSynonym syn (.vstr s) false =
        jsIncludes (jsToLower s) (jsToLower syn))
    ∧ (∀ (elems : List String) (fm : Bool),
      matchKeywordToSynonym syn (.varr elems) fm =
        elems.any (fun el => matchStringToSynonym syn el fm)) := by
  refine ⟨?_, ?_, ?_, ?_, ?_⟩
  · intro pre post h1 h2 hpre hsyn
    rw [isKeyWordFoundInSynonym_eq_loop sm _ word pm h1 h2]
    rw [synonymLoop_first_hit sm word pm syn post hsyn pre false hpre]
    rfl
  · intro s hs hse
    rw [isKeyWordFoundInSynonym_eq_loop sm _ word pm
      (by rw [hse]; intro h; cases h)
      (by rw [hse]; intro h; injection h with h'; injection h' with h''
          exact hs h'')]
    rw [synonymLoop]
    have hcf : candidateFound sm word pm syn =
        matchKeywordToSynonym syn (.vstr s)
          (!pm && (sm.fullMatch || (syn != word))) := by
      rw [candidateFound.eq_def, hse]
      cases pm with
      | true => simp [isSynonymFlag]
      | false =>
          cases hf : sm.fullMatch with
          | true => simp [isSynonymFlag, hf]
          | false =>
              cases hw : (syn != word) with
              | true => simp [isSynonymFlag, hf, hw]
              | false => simp [isSynonymFlag, hf, hw]
    by_cases h : candidateFound sm word pm syn = true
    · rw [if_pos h]
      rw [← hcf, h]
    · rw [if_neg h]
      rw [synonymLoop]
      rw [← hcf]
      simp only [Bool.not_eq_true] at h
      rw [h]
  · intro s; rfl
  · intro s; rfl
  · intro elems fm
    show decide (0 < (elems.filter _).length) = _
    exact filter_length_pos_eq_any _ elems

/-- C3 witness: with the field value `"alpha beta"`, query word `"x"`
and candidate `"beta"` after a non-matching candidate `"zz"`, the hit is
classified as a synonym hit (candidate differs from the query word, the
field does not mandate whole-word matching). -/
theorem synonymHit_classification_witness :
    isKeyWordFoundInSynonym
        ⟨some (.vstr "alpha beta"), false, 3, 1⟩
        (["zz"] ++ "beta" :: ["qq"]) "x" false =
      { found := true, synonym := ("beta" != "x") && !false } :=
  (synonymHit_classification_and_mode
      ⟨some (.vstr "alpha beta"), false, 3, 1⟩ "x" "beta" false).1
    ["zz"] ["qq"] (by decide) (by decide) (by decide) (by decide)

/-! ### C6 — synonym lookup -/

/-- C6 counterexample: the lookup is not case-insensitive.  With the
single synonym group `[car, auto]`, looking up `"auto"` returns
`[auto, car]` but looking up `"AUTO"` — the same word up to case —
returns only `[auto]`, because `list.indexOf(search)` tests the word
exactly as given. -/
theorem getSynonyms_case_sensitive_cex :
    jsToLower "AUTO" = jsToLower "auto"
    ∧ getSynonyms [["car", "auto"]] "auto" = ["auto", "car"]
    ∧ getSynonyms [["car", "auto"]] "AUTO" = ["auto"]
    ∧ getSynonyms [["car", "auto"]] "AUTO" ≠ getSynonyms [["car", "auto"]] "auto" := by
  exact ⟨by decide, by decide, by decide, by decide⟩

/-- C6 (amended): `getSynonyms` always contains the lower-cased word,
returns exactly the singleton lower-cased word when no group contains
the word as given, includes every member of every group containing the
word as given, and returns nothing beyond those; but group membership is
tested with the word exactly as given, so the lookup is case-sensitive
(inputs differing only in case may yield different sets).  The lookup
never fails (it is a total function). -/
theorem getSynonyms_contract (L : List (List String)) (w : String) :
    jsToLower w ∈ getSynonyms L w
    ∧ ((∀ g ∈ L, w ∉ g) → getSynonyms L w = [jsToLower w])
    ∧ (∀ g ∈ L, w ∈ g → ∀ x ∈ g, x ∈ getSynonyms L w)
    ∧ (∀ x ∈ getSynonyms L w, x = jsToLower w ∨ ∃ g ∈ L, w ∈ g ∧ x ∈ g) := by
  refine ⟨?_, ?_, ?_, ?_⟩
  · exact mem_getSynonymsAux w L [jsToLower w] (jsToLower w) (by simp)
  · intro h
    exact getSynonymsAux_no_group w L [jsToLower w] h
  · intro g hgL hw x hx
    exact getSynonymsAux_group w L [jsToLower w] g hgL hw x hx
  · intro x hx
    rcases getSynonymsAux_sound w L [jsToLower w] x hx with h | h
    · exact Or.inl (by simpa using h)
    · exact Or.inr h

/-- C6 witness: with group `[car, auto]`, looking up `"auto"` yields a
set containing both `"auto"` and `"car"`; with a group not containing
the word, the result is the singleton lower-cased word. -/
theorem getSynonyms_contract_witness :
    jsToLower "auto" ∈ getSynonyms [["car", "auto"]] "auto"
    ∧ "car" ∈ getSynonyms [["car", "auto"]] "auto"
    ∧ getSynonyms [["fahrrad", "rad"]] "auto" = [jsToLower "auto"] :=
  ⟨(getSynonyms_contract [["car", "auto"]] "auto").1,
   (getSynonyms_contract [["car", "auto"]] "auto").2.2.1
     ["car", "auto"] (by decide) (by decide) "car" (by decide),
   (getSynonyms_contract [["fahrrad", "rad"]] "auto").2.1 (by decide)⟩

/-! ### C7 — the content flattener -/

/-- C7 counterexample: a node whose `children` relation is present but
*empty* still contributes a record — `if (child.children)` is a JS
truthiness test and an empty array is truthy — refuting "contributes if
and only if it has at least one child". -/
theorem setUpData_empty_children_cex :
    (RawServerData.mk "leaf" (some [])).children.getD [] = []
    ∧ setUpDataList tfA [RawServerData.mk "leaf" (some [])] =
        [{ name := "leaf", searchRank := 0 }]
    ∧ setUpDataList tfA [RawServerData.mk "leaf" (some [])] ≠ [] := by
  have h : setUpDataList tfA [RawServerData.mk "leaf" (some [])] =
      [{ name := "leaf", searchRank := 0 }] := by
    simp [setUpDataList, tfA, RawServerData.jcrContent]
  exact ⟨rfl, h, by rw [h]; decide⟩

/-- C7 (amended): a node contributes a record exactly when its
`children` relation is *present* (non-null/undefined) — even when the
children list is empty; qualifying nodes appear in pre-order (node,
then its children, then later siblings), and a node with a missing
`children` relation is treated as having zero children without
crashing (the traversal is a total function). -/
theorem setUpData_preorder_contribution
    (tf : RawServerData → CommonSearchModel) (l : List RawServerData) :
    setUpDataList tf l =
      ((preorderList l).filter (fun n => n.children.isSome)).map tf := by
  induction l using setUpDataList.induct tf with
  | case1 => simp [setUpDataList, preorderList]
  | case2 j cs rest ih1 ih2 =>
      rw [setUpDataList, preorderList]
      simp only [List.filter_cons, List.filter_append, RawServerData.children,
        Option.isSome_some, if_true, List.map_cons, List.map_append]
      rw [ih1, ih2]
      rfl
  | case3 j rest ih =>
      rw [setUpDataList, preorderList]
      simp only [List.filter_cons, RawServerData.children, Option.isSome_none,
        Bool.false_eq_true, if_false]
      rw [ih]
      rfl

/-! ### C8 — the empty-query sentinel -/

/-- C8 counterexample: the sentinel label the code returns is the
misspelled `'not-definied'`, not `"not-defined"` as the claim states. -/
theorem empty_query_sentinel_cex :
    (getSearchResult ctxA [] (some "")).2.search = "not-definied"
    ∧ (getSearchResult ctxA [] (some "")).2.search ≠ "not-defined"
    ∧ (getSearchResult ctxA [] none).2.search ≠ "not-defined" := by
  exact ⟨rfl, by decide, by decide⟩

/-- C8 (amended): for the empty string and for an undefined query,
`getSearchResult` returns exactly
`{search: 'not-definied', foundItems: 0, results: []}` — with the
code's misspelled sentinel label — and leaves the cache untouched
(no record is scored). -/
theorem empty_query_sentinel (ctx : SearchCtx) (st : List CommonSearchModel) :
    getSearchResult ctx st none =
      (st, { search := "not-definied", foundItems := 0, results := [] })
    ∧ getSearchResult ctx st (some "") =
      (st, { search := "not-definied", foundItems := 0, results := [] }) := by
  exact ⟨rfl, rfl⟩

/-! ### C9 — the post-refresh callback chain -/

/-- C9 counterexample: with a first callback that throws and a second
that would succeed, only the first is invoked — the single guarded
`try` block stops the chain at the first failure, so the remaining
callbacks of the cycle do not run, refuting the claim. -/
theorem callback_chain_stops_cex :
    (triggerGetServerData tfA [] "t" ⟨[], none⟩
        [⟨0, false⟩, ⟨1, true⟩]).2 = [0]
    ∧ (1 : Nat) ∉ (triggerGetServerData tfA [] "t" ⟨[], none⟩
        [⟨0, false⟩, ⟨1, true⟩]).2 := by
  exact ⟨rfl, by decide⟩

/-- C9 (amended): the registered callbacks run sequentially, each
awaited before the next; when one callback throws, the error is caught
and logged, but the remaining callbacks of that cycle do *not* run —
the chain stops at the first failure — and no exception propagates out
of the cycle (the fetch outcome is unaffected and the cycle returns
normally, so the next scheduled tick still occurs). -/
theorem callback_chain_stops_on_failure
    (tf : RawServerData → CommonSearchModel) (mirrors : List MirrorOutcome)
    (now : String) (st : ServiceState) (pre : List RefreshCallback)
    (c : RefreshCallback) (post : List RefreshCallback)
    (hpre : ∀ d ∈ pre, d.ok = true) (hc : c.ok = false) :
    (triggerGetServerData tf mirrors now st (pre ++ c :: post)).2 =
        pre.map RefreshCallback.id ++ [c.id]
    ∧ (triggerGetServerData tf mirrors now st (pre ++ c :: post)).1 =
        getServerData tf mirrors now st := by
  constructor
  · show (runServerDataCallBacks (pre ++ c :: post)).1 =
      pre.map RefreshCallback.id ++ [c.id]
    induction pre with
    | nil =>
        rw [List.nil_append, runServerDataCallBacks, if_neg (by simp [hc])]
        simp
    | cons d ds ih =>
        have hd : d.ok = true := hpre d (by simp)
        rw [List.cons_append, runServerDataCallBacks, if_pos hd]
        have := ih (fun x hx => hpre x (by simp [hx]))
        simp only [List.map_cons, List.cons_append]
        rw [← this]
  · rfl

/-! ### C4 and C5 — the remote fetcher -/

theorem runMirrors_first_valid (j : ServerJson)
    (hj : isValidData (some j) = true) (rest : List MirrorOutcome) :
    ∀ (pre : List MirrorOutcome) (d : Option ServerJson),
      isValidData d = false → (∀ m ∈ pre, mirrorValid m = false) →
      runMirrors (pre ++ MirrorOutcome.response j :: rest) d = some j := by
  intro pre
  induction pre with
  | nil =>
      intro d _ _
      rw [List.nil_append, runMirrors]
      rw [if_pos hj]
  | cons m ms ih =>
      intro d hd hpre
      have hm : mirrorValid m = false := hpre m (by simp)
      have htail : ∀ x ∈ ms, mirrorValid x = false :=
        fun x hx => hpre x (by simp [hx])
      cases m with
      | fetchError =>
          rw [List.cons_append, runMirrors, if_neg (by simp [hd])]
          exact ih _ hd htail
      | response j' =>
          rw [List.cons_append, runMirrors, if_neg (by simp [mirrorValid] at hm; simp [hm])]
          exact ih _ (by simpa [mirrorValid] using hm) htail

theorem runMirrors_all_invalid :
    ∀ (ms : List MirrorOutcome) (d : Option ServerJson),
      isValidData d = false → (∀ m ∈ ms, mirrorValid m = false) →
      isValidData (runMirrors ms d) = false := by
  intro ms
  induction ms with
  | nil => intro d hd _; exact hd
  | cons m rest ih =>
      intro d hd hall
      have hm : mirrorValid m = false := hall m (by simp)
      have htail : ∀ x ∈ rest, mirrorValid x = false :=
        fun x hx => hall x (by simp [hx])
      cases m with
      | fetchError =>
          rw [runMirrors, if_neg (by simp [hd])]
          exact ih _ hd htail
      | response j' =>
          rw [runMirrors, if_neg (by simp [mirrorValid] at hm; simp [hm])]
          exact ih _ (by simpa [mirrorValid] using hm) htail

/-- C4: `getServerData` tries the mirrors strictly in their given order;
a mirror whose request throws or whose body is invalid (no `pathList`,
or an empty one) is skipped; the first valid response wins regardless of
what later mirrors would return, the cache is replaced by the flattening
of that mirror's `pathList`, and the last-refresh outcome is recorded as
`Success` with the cycle's timestamp. -/
theorem getServerData_failover (tf : RawServerData → CommonSearchModel)
    (now : String) (st : ServiceState) (pre rest : List MirrorOutcome)
    (j : ServerJson) (hpre : ∀ m ∈ pre, mirrorValid m = false)
    (hj : isValidData (some j) = true) :
    getServerData tf (pre ++ MirrorOutcome.response j :: rest) now st =
      { rawData := flattenPathList tf (j.pathList.getD []),
        lastCacheUpdate := some ⟨now, Status.success⟩ } := by
  have hrun : runMirrors (pre ++ MirrorOutcome.response j :: rest) none =
      some j := runMirrors_first_valid j hj rest pre none rfl hpre
  rw [getServerData.eq_def, hrun]
  simp [hj]

/-- C4 witness: first mirror throws, second returns a body without a
usable `pathList`, third returns a valid body; the cache becomes the
flattening of the third mirror's data and the outcome is `Success`. -/
theorem getServerData_failover_witness :
    getServerData tfA
        [MirrorOutcome.fetchError, MirrorOutcome.response ⟨none⟩,
         MirrorOutcome.response ⟨some [[RawServerData.mk "n" (some [])]]⟩]
        "now" ⟨[⟨"old", 1⟩], none⟩ =
      { rawData := flattenPathList tfA [[RawServerData.mk "n" (some [])]],
        lastCacheUpdate := some ⟨"now", Status.success⟩ } :=
  getServerData_failover tfA "now" ⟨[⟨"old", 1⟩], none⟩
    [MirrorOutcome.fetchError, MirrorOutcome.response ⟨none⟩] []
    ⟨some [[RawServerData.mk "n" (some [])]]⟩
    (by intro m hm; fin_cases hm <;> rfl) rfl

/-- C5: when every mirror fails (request throws or response invalid),
the cache is exactly what it was before the attempt and the
last-refresh outcome is recorded as `Error` with the cycle's
timestamp — a failed fetch is never partially applied. -/
theorem getServerData_total_failure (tf : RawServerData → CommonSearchModel)
    (mirrors : List MirrorOutcome) (now : String) (st : ServiceState)
    (hall : ∀ m ∈ mirrors, mirrorValid m = false) :
    (getServerData tf mirrors now st).rawData = st.rawData
    ∧ (getServerData tf mirrors now st).lastCacheUpdate =
        some ⟨now, Status.error⟩ := by
  have hinv : isValidData (runMirrors mirrors none) = false :=
    runMirrors_all_invalid mirrors none rfl hall
  rw [getServerData.eq_def]
  cases h : runMirrors mirrors none with
  | none => exact ⟨rfl, rfl⟩
  | some j =>
      rw [h] at hinv
      simp [hinv]

/-- C5 witness: two mirrors — one throwing, one answering with an empty
`pathList` — leave the pre-existing cache byte-for-byte intact and
record `Error`. -/
theorem getServerData_total_failure_witness :
    (getServerData tfA
        [MirrorOutcome.fetchError, MirrorOutcome.response ⟨some []⟩]
        "now" ⟨[⟨"old", 1⟩], some ⟨"before", Status.success⟩⟩).rawData =
      [⟨"old", 1⟩]
    ∧ (getServerData tfA
        [MirrorOutcome.fetchError, MirrorOutcome.response ⟨some []⟩]
        "now" ⟨[⟨"old", 1⟩], some ⟨"before", Status.success⟩⟩).lastCacheUpdate =
      some ⟨"now", Status.error⟩ :=
  getServerData_total_failure tfA
    [MirrorOutcome.fetchError, MirrorOutcome.response ⟨some []⟩]
    "now" ⟨[⟨"old", 1⟩], some ⟨"before", Status.success⟩⟩
    (by intro m hm; fin_cases hm <;> rfl)

/-- C9 witness: with callbacks `[7 ok, 3 throwing, 9 ok]`, exactly
`[7, 3]` are invoked and the fetch state is unaffected. -/
theorem callback_chain_witness :
    (triggerGetServerData tfA [] "t" ⟨[], none⟩
        [⟨7, true⟩, ⟨3, false⟩, ⟨9, true⟩]).2 = [7, 3]
    ∧ (triggerGetServerData tfA [] "t" ⟨[], none⟩
        [⟨7, true⟩, ⟨3, false⟩, ⟨9, true⟩]).1 =
      getServerData tfA [] "t" ⟨[], none⟩ :=
  callback_chain_stops_on_failure tfA [] "t" ⟨[], none⟩
    [⟨7, true⟩] ⟨3, false⟩ [⟨9, true⟩] (by decide) rfl

end SearchModule
